import Mathlib

/-!
Verification of the fungible-token application (`examples/fungible/src/lib.rs`)
of the linera-protocol repository.

The data types (`Operation`, `Message`, `SessionCall`, `AccountOwner`,
`Account`, `Destination`, `InitialState`, `InitialStateBuilder`) and the
hand-written serde implementation for `AccountOwner` are embedded from the
source file. The execution handlers (operation handler, message handler,
session handler) are not part of the given source tree — only their input
enums are — so they are modelled from the specification, as marked on each
definition. `Amount` (a non-negative fixed-point quantity) is modelled as
`Nat`; strings are modelled as `List Char`.
-/

namespace Fungible

instance {ε α : Type} [DecidableEq ε] [DecidableEq α] :
    DecidableEq (Except ε α) := fun x y =>
  match x, y with
  | .ok a, .ok b =>
    if h : a = b then .isTrue (by rw [h])
    else .isFalse (fun he => h (Except.ok.inj he))
  | .error a, .error b =>
    if h : a = b then .isTrue (by rw [h])
    else .isFalse (fun he => h (Except.error.inj he))
  | .ok _, .error _ => .isFalse (fun he => Except.noConfusion he)
  | .error _, .ok _ => .isFalse (fun he => Except.noConfusion he)

/-- Characters allowed in the textual form of an identity (lowercase hex). -/
def isHexLower (c : Char) : Bool :=
  (('0' ≤ c && c ≤ '9') || ('a' ≤ c && c ≤ 'f'))

/-- A valid identity text: nonempty, lowercase hex. -/
def validIdent (l : List Char) : Bool :=
  !l.isEmpty && l.all isHexLower

/-- Modelled from the spec: `Owner` (a user identity from `linera_sdk::base`,
not in the given sources) is identified with its canonical textual form, a
hex string; `Display` prints exactly that text and `FromStr` accepts exactly
such texts. -/
def Owner : Type := {l : List Char // validIdent l = true}

instance : DecidableEq Owner :=
  inferInstanceAs (DecidableEq {l : List Char // validIdent l = true})

/-- Modelled from the spec: `ApplicationId` (from `linera_sdk::base`, not in
the given sources) identified with its canonical textual form. -/
def ApplicationId : Type := {l : List Char // validIdent l = true}

instance : DecidableEq ApplicationId :=
  inferInstanceAs (DecidableEq {l : List Char // validIdent l = true})

/-- `Display` for `Owner`: its textual form (used by `format!("User:{}", owner)`). -/
def ownerToText (o : Owner) : List Char := o.val

/-- Modelled from the spec: `Owner::from_str`, accepting exactly the
printed forms. -/
def ownerFromStr (l : List Char) : Option Owner :=
  if h : validIdent l = true then some ⟨l, h⟩ else none

/-- `Display` for `ApplicationId`: its textual form. -/
def appIdToText (a : ApplicationId) : List Char := a.val

/-- Modelled from the spec: `ApplicationId::from_str`, accepting exactly the
printed forms. -/
def appIdFromStr (l : List Char) : Option ApplicationId :=
  if h : validIdent l = true then some ⟨l, h⟩ else none

/-- `AccountOwner`: an account owned by a user, or an account for an
application (source `enum AccountOwner`). -/
inductive AccountOwner : Type where
  | User (owner : Owner)
  | Application (app_id : ApplicationId)
deriving DecidableEq

/-- `impl Serialize for AccountOwner`: the key is
`format!("User:{}", owner)` or `format!("Application:{}", app_id)`. -/
def serializeAccountOwner : AccountOwner → List Char
  | .User owner => ("User:").data ++ ownerToText owner
  | .Application app_id => ("Application:").data ++ appIdToText app_id

/-- Errors produced by `AccountOwnerVisitor::visit_str`. -/
inductive DeError : Type where
  /-- `Error::custom("string does not contain colon")` -/
  | missingColon
  /-- `Error::custom("failed to parse Owner from string: ...")` -/
  | badOwner (rest : List Char)
  /-- `Error::custom("failed to parse ApplicationId from string: ...")` -/
  | badAppId (rest : List Char)
  /-- `Error::unknown_variant(parts[0], ["User", "Application"])` -/
  | unknownVariant (got : List Char)
deriving DecidableEq

/-- `value.splitn(2, ':')` restricted to its two-part outcome: splits a
string at its first colon, `none` when there is no colon. -/
def splitFirstColon : List Char → Option (List Char × List Char)
  | [] => none
  | c :: rest =>
    if c = ':' then some ([], rest)
    else
      match splitFirstColon rest with
      | none => none
      | some (a, b) => some (c :: a, b)

/-- `AccountOwnerVisitor::visit_str` (source `impl Deserialize for
AccountOwner`): split on the first colon, dispatch on the prefix, parse the
remainder as an identity. -/
def deserializeAccountOwner (value : List Char) : Except DeError AccountOwner :=
  match splitFirstColon value with
  | none => .error .missingColon
  | some (pre, rest) =>
    if pre = ("User").data then
      match ownerFromStr rest with
      | some owner => .ok (.User owner)
      | none => .error (.badOwner rest)
    else if pre = ("Application").data then
      match appIdFromStr rest with
      | some app_id => .ok (.Application app_id)
      | none => .error (.badAppId rest)
    else .error (.unknownVariant pre)

/-- `impl<T> From<T> for AccountOwner where T: Into<Owner>`:
`AccountOwner::User(owner.into())`. -/
def accountOwnerFrom {T : Type} (into : T → Owner) (owner : T) : AccountOwner :=
  AccountOwner.User (into owner)

/-- `ChainId` (opaque chain identity, `linera_sdk::base`); only its
decidable equality matters. -/
abbrev ChainId : Type := Nat

/-- `struct Account`: a chain identity together with an account owner. -/
structure Account : Type where
  chain_id : ChainId
  owner : AccountOwner
deriving DecidableEq

/-- A finite map as an association list; `insert` mirrors
`BTreeMap::insert`: an existing binding of the key is replaced, otherwise a
new binding is added. -/
def mapInsert {K V : Type} [DecidableEq K] (k : K) (v : V) :
    List (K × V) → List (K × V)
  | [] => [(k, v)]
  | (k', v') :: rest =>
    if k = k' then (k, v) :: rest else (k', v') :: mapInsert k v rest

/-- `BTreeMap::get` on the association-list model. -/
def mapLookup {K V : Type} [DecidableEq K] (k : K) :
    List (K × V) → Option V
  | [] => none
  | (k', v') :: rest => if k = k' then some v' else mapLookup k rest

/-- `enum Operation` (source): `Transfer` and `Claim`. -/
inductive Operation : Type where
  | Transfer (owner : AccountOwner) (amount : Nat) (target_account : Account)
  | Claim (source_account : Account) (amount : Nat) (target_account : Account)
deriving DecidableEq

/-- `enum Message` (source): `Credit` and `Withdraw`. -/
inductive Message : Type where
  | Credit (owner : AccountOwner) (amount : Nat)
  | Withdraw (owner : AccountOwner) (amount : Nat) (target_account : Account)
deriving DecidableEq

/-- Errors of the execution handlers. -/
inductive FungibleError : Type where
  | insufficientBalance
  | messageNotFound
deriving DecidableEq

/-- The global state of one application across all chains: every chain's
ledger (absence of a key means balance zero), merged into one map keyed by
`Account = (chain, owner)`, plus the in-flight messages, each addressed to
its destination chain. -/
structure GState : Type where
  ledgers : List (Account × Nat)
  inflight : List (ChainId × Message)
deriving DecidableEq

/-- Balance of an account: its ledger entry, zero when absent. -/
def getBal (s : GState) (a : Account) : Nat :=
  (mapLookup a s.ledgers).getD 0

/-- Overwrite the balance of one account. -/
def setBal (s : GState) (a : Account) (v : Nat) : GState :=
  { s with ledgers := mapInsert a v s.ledgers }

/-- Modelled from the spec: crediting an account unconditionally increases
its balance on the receiving chain, creating the account if absent
(spec, Message Handler, `Credit`). -/
def credit (s : GState) (a : Account) (amount : Nat) : GState :=
  setBal s a (getBal s a + amount)

/-- Modelled from the spec: debiting requires `balance(owner) ≥ amount`,
failing with `InsufficientBalance` otherwise, and never applies a partial
debit (spec, Operation Handler / Error Handling). -/
def debit (s : GState) (a : Account) (amount : Nat) :
    Except FungibleError GState :=
  if getBal s a < amount then .error .insufficientBalance
  else .ok (setBal s a (getBal s a - amount))

/-- Modelled from the spec: the tail of a transfer. If the target chain is
the executing chain, credit the target owner directly with no message;
otherwise emit exactly one `Credit` message addressed to the target chain
(spec, Operation Handler, `Transfer`). -/
def finishTransfer (chain : ChainId) (target_account : Account)
    (amount : Nat) (s : GState) : GState :=
  if target_account.chain_id = chain then
    credit s target_account amount
  else
    { s with
      inflight :=
        s.inflight ++ [(target_account.chain_id,
          Message.Credit target_account.owner amount)] }

/-- Modelled from the spec: the operation handler, executing on `chain`.
`Transfer` debits the local owner then finishes the transfer; `Claim`
mutates no balance and emits one `Withdraw` message addressed to the source
account's chain (spec, Operation Handler). -/
def executeOperation (chain : ChainId) (op : Operation) (s : GState) :
    Except FungibleError GState :=
  match op with
  | .Transfer owner amount target_account =>
    match debit s ⟨chain, owner⟩ amount with
    | .error e => .error e
    | .ok s' => .ok (finishTransfer chain target_account amount s')
  | .Claim source_account amount target_account =>
    .ok { s with
          inflight :=
            s.inflight ++ [(source_account.chain_id,
              Message.Withdraw source_account.owner amount target_account)] }

/-- Modelled from the spec: the message handler, executing on the
destination chain with the delivered message already removed from flight.
`Credit` unconditionally credits; `Withdraw` debits the owner on this chain
(failing with `InsufficientBalance`, in which case nothing is applied) and
finishes the transfer towards the target account (spec, Message Handler). -/
def handleMessage (chain : ChainId) (m : Message) (s : GState) :
    Except FungibleError GState :=
  match m with
  | .Credit owner amount => .ok (credit s ⟨chain, owner⟩ amount)
  | .Withdraw owner amount target_account =>
    match debit s ⟨chain, owner⟩ amount with
    | .error e => .error e
    | .ok s' => .ok (finishTransfer chain target_account amount s')

/-- Modelled from the spec: deliver the `i`-th in-flight message to its
destination chain: the message leaves flight and its handler executes there.
A failing handler rejects the whole delivery — no state change. -/
def deliverMessage (i : Nat) (s : GState) : Except FungibleError GState :=
  match s.inflight.get? i with
  | none => .error .messageNotFound
  | some cm =>
    handleMessage cm.1 cm.2 { s with inflight := s.inflight.eraseIdx i }

/-- Total of all ledger balances across all chains. -/
def totalOf (l : List (Account × Nat)) : Nat :=
  (l.map Prod.snd).sum

/-- Value in transit: a `Credit` message carries its amount; a `Withdraw`
message carries none (emission does not itself debit). -/
def transitAmt : ChainId × Message → Nat
  | (_, .Credit _ amount) => amount
  | (_, .Withdraw _ _ _) => 0

/-- Total value currently in transit. -/
def transitOf (l : List (ChainId × Message)) : Nat :=
  (l.map transitAmt).sum

/-- One step of the system: some chain executes an operation, or some
in-flight message is delivered; failed executions change nothing and hence
are not steps. -/
inductive Step : GState → GState → Prop where
  | op (chain : ChainId) (o : Operation) (s s' : GState) :
      executeOperation chain o s = .ok s' → Step s s'
  | deliver (i : Nat) (s s' : GState) :
      deliverMessage i s = .ok s' → Step s s'

/-- Any finite sequence of steps. -/
def Steps : GState → GState → Prop := Relation.ReflTransGen Step

/-- `enum Destination` (source): credit a concrete account, or spawn a new
session funded with the transferred amount. -/
inductive Destination : Type where
  | Account (account : Account)
  | NewSession
deriving DecidableEq

/-- `enum SessionCall` (source): a request for the session's balance, or a
transfer from the session. -/
inductive SessionCall : Type where
  | Balance
  | Transfer (amount : Nat) (destination : Destination)
deriving DecidableEq

/-- Modelled from the spec: a transfer out of a session only adjusts the
session's remaining amount when the remainder suffices; otherwise it fails
with `InsufficientBalance` and nothing changes (spec, Session). -/
def sessionTransfer (remaining amount : Nat) : Except FungibleError Nat :=
  if remaining < amount then .error .insufficientBalance
  else .ok (remaining - amount)

/-- Modelled from the spec: resolving a session transfer's destination. An
account destination follows the operation handler's logic (local credit vs
outbound `Credit` message); a `NewSession` destination moves the amount into
a fresh session held by the caller, leaving the ledger untouched. -/
def finishSessionTransfer (chain : ChainId) (destination : Destination)
    (amount : Nat) (s : GState) : GState :=
  match destination with
  | .Account target => finishTransfer chain target amount s
  | .NewSession => s

/-- Modelled from the spec: the session call handler. `Balance` returns the
remaining amount with no mutation; `Transfer` requires `remaining ≥ amount`
(else `InsufficientBalance`), decrements the remainder and resolves the
destination (spec, Session). -/
def handleSessionCall (chain : ChainId) (call : SessionCall)
    (remaining : Nat) (s : GState) :
    Except FungibleError (Nat × GState) :=
  match call with
  | .Balance => .ok (remaining, s)
  | .Transfer amount destination =>
    match sessionTransfer remaining amount with
    | .error e => .error e
    | .ok r => .ok (r, finishSessionTransfer chain destination amount s)

/-- The amount a session call attempts to move out of the session. -/
def sessionOut : SessionCall → Nat
  | .Balance => 0
  | .Transfer amount _ => amount

/-- Run a sequence of session calls against a session; a failed call leaves
the session and the ledger unchanged. Returns the session's final remaining
amount, the final global state, and the total amount moved out of the
session by the calls that succeeded. -/
def runSession (chain : ChainId) :
    List SessionCall → Nat → GState → Nat × GState × Nat
  | [], remaining, s => (remaining, s, 0)
  | call :: calls, remaining, s =>
    match handleSessionCall chain call remaining s with
    | .error _ => runSession chain calls remaining s
    | .ok (r, s') =>
      ((runSession chain calls r s').1, (runSession chain calls r s').2.1,
        sessionOut call + (runSession chain calls r s').2.2)

/-- `struct InitialState`: the accounts that start with tokens
(`BTreeMap<AccountOwner, Amount>`, modelled as an association list). -/
structure InitialState : Type where
  accounts : List (AccountOwner × Nat)
deriving DecidableEq

/-- `struct InitialStateBuilder` (source): accumulates account balances. -/
structure InitialStateBuilder : Type where
  account_balances : List (AccountOwner × Nat)
deriving DecidableEq

/-- `InitialStateBuilder::default()`: an empty map. -/
def InitialStateBuilder.default : InitialStateBuilder := ⟨[]⟩

/-- `InitialStateBuilder::with_account`: inserts the account into the map,
replacing any existing binding of the same owner (`BTreeMap::insert`). -/
def InitialStateBuilder.with_account (b : InitialStateBuilder)
    (account : AccountOwner) (balance : Nat) : InitialStateBuilder :=
  ⟨mapInsert account balance b.account_balances⟩

/-- `InitialStateBuilder::build`: the accumulated accounts. -/
def InitialStateBuilder.build (b : InitialStateBuilder) : InitialState :=
  ⟨b.account_balances⟩

/-- The state at application instantiation: the initial distribution becomes
the creation chain's ledger and nothing is in flight. -/
def initialGState (chain : ChainId) (st : InitialState) : GState :=
  ⟨st.accounts.map (fun p => (⟨chain, p.1⟩, p.2)), []⟩

/-- Total-function wrapper of the operation handler: a failing operation is
rejected in full, leaving the state unchanged. -/
def applyOperation (chain : ChainId) (op : Operation) (s : GState) : GState :=
  match executeOperation chain op s with
  | .ok s' => s'
  | .error _ => s

/-- Total-function wrapper of the message handler: a failing message
execution is rejected in full, leaving the state unchanged. -/
def applyMessage (chain : ChainId) (m : Message) (s : GState) : GState :=
  match handleMessage chain m s with
  | .ok s' => s'
  | .error _ => s

/-- The total value of a global state: all ledger balances plus all value in
transit. -/
def totalValue (s : GState) : Nat :=
  totalOf s.ledgers + transitOf s.inflight

theorem mapLookup_insert_self {K V : Type} [DecidableEq K] (k : K) (v : V) :
    ∀ l : List (K × V), mapLookup k (mapInsert k v l) = some v
  | [] => by simp [mapInsert, mapLookup]
  | (k', v') :: rest => by
    by_cases h : k = k'
    · simp [mapInsert, mapLookup, h]
    · simp [mapInsert, mapLookup, h, mapLookup_insert_self k v rest]

theorem mapLookup_insert_ne {K V : Type} [DecidableEq K] {k k' : K} (v : V)
    (h : k' ≠ k) :
    ∀ l : List (K × V), mapLookup k' (mapInsert k v l) = mapLookup k' l
  | [] => by simp [mapInsert, mapLookup, h]
  | (a, b) :: rest => by
    by_cases hk : k = a
    · subst hk
      simp [mapInsert, mapLookup, h]
    · simp only [mapInsert, if_neg hk, mapLookup]
      by_cases hk' : k' = a
      · simp [hk']
      · simp [hk', mapLookup_insert_ne v h rest]

theorem sum_mapInsert {K : Type} [DecidableEq K] (k : K) (v : Nat) :
    ∀ l : List (K × Nat),
      ((mapInsert k v l).map Prod.snd).sum + (mapLookup k l).getD 0
        = (l.map Prod.snd).sum + v
  | [] => by simp [mapInsert, mapLookup]
  | (k', v') :: rest => by
    by_cases h : k = k'
    · simp only [mapInsert, if_pos h, mapLookup, h]
      simp
      omega
    · simp only [mapInsert, if_neg h, mapLookup, if_neg h, List.map_cons,
        List.sum_cons]
      have := sum_mapInsert k v rest
      omega

theorem getBal_setBal_self (s : GState) (a : Account) (v : Nat) :
    getBal (setBal s a v) a = v := by
  simp [getBal, setBal, mapLookup_insert_self]

theorem getBal_setBal_ne (s : GState) {a a' : Account} (v : Nat)
    (h : a' ≠ a) : getBal (setBal s a v) a' = getBal s a' := by
  simp [getBal, setBal, mapLookup_insert_ne v h]

theorem totalOf_setBal (s : GState) (a : Account) (v : Nat) :
    totalOf (setBal s a v).ledgers + getBal s a = totalOf s.ledgers + v := by
  simpa [totalOf, setBal, getBal] using sum_mapInsert a v s.ledgers

theorem transitOf_append (l1 l2 : List (ChainId × Message)) :
    transitOf (l1 ++ l2) = transitOf l1 + transitOf l2 := by
  simp [transitOf]

theorem transitOf_eraseIdx :
    ∀ (l : List (ChainId × Message)) (i : Nat) (cm : ChainId × Message),
      l.get? i = some cm →
      transitOf l = transitOf (l.eraseIdx i) + transitAmt cm
  | [], i, cm, h => by simp at h
  | x :: xs, 0, cm, h => by
    simp only [List.get?] at h
    cases h
    simp [transitOf, List.eraseIdx]
    omega
  | x :: xs, i + 1, cm, h => by
    simp only [List.get?] at h
    have := transitOf_eraseIdx xs i cm h
    simp only [List.eraseIdx, transitOf, List.map_cons, List.sum_cons] at *
    omega

theorem totalValue_credit (s : GState) (a : Account) (amt : Nat) :
    totalValue (credit s a amt) = totalValue s + amt := by
  have h := totalOf_setBal s a (getBal s a + amt)
  simp only [totalValue, credit]
  have hin : (setBal s a (getBal s a + amt)).inflight = s.inflight := rfl
  rw [hin]
  omega

theorem debit_ok {s : GState} {a : Account} {amt : Nat} {s' : GState}
    (h : debit s a amt = .ok s') :
    amt ≤ getBal s a ∧ s' = setBal s a (getBal s a - amt) := by
  by_cases hlt : getBal s a < amt
  · simp [debit, hlt] at h
  · simp [debit, hlt] at h
    exact ⟨Nat.le_of_not_lt hlt, h.symm⟩

theorem totalValue_debit {s : GState} {a : Account} {amt : Nat}
    {s' : GState} (h : debit s a amt = .ok s') :
    totalValue s' + amt = totalValue s := by
  obtain ⟨hle, rfl⟩ := debit_ok h
  have h2 := totalOf_setBal s a (getBal s a - amt)
  have hin : (setBal s a (getBal s a - amt)).inflight = s.inflight := rfl
  simp only [totalValue, hin]
  omega

theorem totalValue_finishTransfer (chain : ChainId) (target : Account)
    (amt : Nat) (s : GState) :
    totalValue (finishTransfer chain target amt s) = totalValue s + amt := by
  by_cases h : target.chain_id = chain
  · simp only [finishTransfer, if_pos h]
    exact totalValue_credit s target amt
  · simp only [finishTransfer, if_neg h, totalValue, transitOf_append]
    simp [transitOf, transitAmt]
    omega

theorem totalValue_executeOperation {chain : ChainId} {o : Operation}
    {s s' : GState} (h : executeOperation chain o s = .ok s') :
    totalValue s' = totalValue s := by
  cases o with
  | Transfer owner amount target_account =>
    simp only [executeOperation] at h
    cases hd : debit s ⟨chain, owner⟩ amount with
    | error e => rw [hd] at h; exact absurd h (by simp)
    | ok s1 =>
      rw [hd] at h
      simp only [Except.ok.injEq] at h
      subst h
      have h1 := totalValue_finishTransfer chain target_account amount s1
      have h2 := totalValue_debit hd
      omega
  | Claim source_account amount target_account =>
    simp only [executeOperation, Except.ok.injEq] at h
    subst h
    simp [totalValue, transitOf_append, transitOf, transitAmt]

theorem totalValue_handleMessage {chain : ChainId} {m : Message}
    {s s' : GState} (h : handleMessage chain m s = .ok s') :
    totalValue s' = totalValue s + transitAmt (chain, m) := by
  cases m with
  | Credit owner amount =>
    simp only [handleMessage, Except.ok.injEq] at h
    subst h
    simp [totalValue_credit, transitAmt]
  | Withdraw owner amount target_account =>
    simp only [handleMessage] at h
    cases hd : debit s ⟨chain, owner⟩ amount with
    | error e => rw [hd] at h; exact absurd h (by simp)
    | ok s1 =>
      rw [hd] at h
      simp only [Except.ok.injEq] at h
      subst h
      have h1 := totalValue_finishTransfer chain target_account amount s1
      have h2 := totalValue_debit hd
      simp only [transitAmt]
      omega

theorem totalValue_deliverMessage {i : Nat} {s s' : GState}
    (h : deliverMessage i s = .ok s') : totalValue s' = totalValue s := by
  simp only [deliverMessage] at h
  cases hg : s.inflight.get? i with
  | none => rw [hg] at h; exact absurd h (by simp)
  | some cm =>
    rw [hg] at h
    have h1 := totalValue_handleMessage h
    have h2 := transitOf_eraseIdx s.inflight i cm hg
    obtain ⟨c, m⟩ := cm
    simp only [totalValue] at *
    omega

theorem totalValue_step {s s' : GState} (h : Step s s') :
    totalValue s' = totalValue s := by
  cases h with
  | op chain o _ _ hex => exact totalValue_executeOperation hex
  | deliver i _ _ hd => exact totalValue_deliverMessage hd

theorem totalValue_steps {s s' : GState} (h : Steps s s') :
    totalValue s' = totalValue s := by
  induction h with
  | refl => rfl
  | tail _ hstep ih => rw [totalValue_step hstep, ih]

theorem splitFirstColon_append :
    ∀ (pre rest : List Char), ':' ∉ pre →
      splitFirstColon (pre ++ ':' :: rest) = some (pre, rest)
  | [], rest, _ => by simp [splitFirstColon]
  | c :: pre, rest, h => by
    have hc : ¬ c = ':' := fun hc => h (hc ▸ List.mem_cons_self c pre)
    have hpre : ':' ∉ pre := fun hm => h (List.mem_cons_of_mem c hm)
    simp only [List.cons_append, splitFirstColon, if_neg hc]
    simp [splitFirstColon_append pre rest hpre]

theorem splitFirstColon_of_not_mem :
    ∀ {l : List Char}, ':' ∉ l → splitFirstColon l = none
  | [], _ => rfl
  | c :: rest, h => by
    have hc : ¬ c = ':' := fun hc => h (hc ▸ List.mem_cons_self c rest)
    have hrest : ':' ∉ rest := fun hm => h (List.mem_cons_of_mem c hm)
    simp only [splitFirstColon, if_neg hc, splitFirstColon_of_not_mem hrest]

theorem splitFirstColon_eq_some :
    ∀ {l a b : List Char}, splitFirstColon l = some (a, b) →
      l = a ++ ':' :: b
  | [], a, b, h => by simp [splitFirstColon] at h
  | c :: rest, a, b, h => by
    by_cases hc : c = ':'
    · simp only [splitFirstColon, if_pos hc] at h
      obtain ⟨ha, hb⟩ := Prod.mk.injEq _ _ _ _ ▸ Option.some.injEq _ _ ▸ h
      subst ha; subst hb; subst hc
      simp
    · simp only [splitFirstColon, if_neg hc] at h
      cases hs : splitFirstColon rest with
      | none => rw [hs] at h; simp at h
      | some ab =>
        obtain ⟨a', b'⟩ := ab
        rw [hs] at h
        simp only [Option.some.injEq, Prod.mk.injEq] at h
        obtain ⟨ha, hb⟩ := h
        subst ha; subst hb
        rw [splitFirstColon_eq_some hs]
        simp

theorem userKey_data : ("User:").data = ("User").data ++ [':'] := by decide

theorem appKey_data :
    ("Application:").data = ("Application").data ++ [':'] := by decide

theorem ownerFromStr_val (o : Owner) : ownerFromStr o.val = some o := by
  simp only [ownerFromStr, dif_pos o.2]
  rfl

theorem appIdFromStr_val (a : ApplicationId) : appIdFromStr a.val = some a := by
  simp only [appIdFromStr, dif_pos a.2]
  rfl

theorem ownerFromStr_eq_some {l : List Char} {o : Owner}
    (h : ownerFromStr l = some o) : o.val = l := by
  by_cases hv : validIdent l = true
  · simp only [ownerFromStr, dif_pos hv, Option.some.injEq] at h
    rw [← h]
  · simp [ownerFromStr, hv] at h

theorem appIdFromStr_eq_some {l : List Char} {a : ApplicationId}
    (h : appIdFromStr l = some a) : a.val = l := by
  by_cases hv : validIdent l = true
  · simp only [appIdFromStr, dif_pos hv, Option.some.injEq] at h
    rw [← h]
  · simp [appIdFromStr, hv] at h

theorem serialize_user (o : Owner) :
    serializeAccountOwner (.User o) = ("User").data ++ ':' :: o.val := by
  simp only [serializeAccountOwner, ownerToText, userKey_data,
    List.append_assoc]
  rfl

theorem serialize_app (a : ApplicationId) :
    serializeAccountOwner (.Application a)
      = ("Application").data ++ ':' :: a.val := by
  simp only [serializeAccountOwner, appIdToText, appKey_data,
    List.append_assoc]
  rfl

theorem deserialize_user (rest : List Char) :
    deserializeAccountOwner (("User").data ++ ':' :: rest)
      = match ownerFromStr rest with
        | some owner => Except.ok (AccountOwner.User owner)
        | none => Except.error (DeError.badOwner rest) := by
  unfold deserializeAccountOwner
  rw [splitFirstColon_append _ _ (by decide)]
  dsimp only
  rw [if_pos rfl]

theorem deserialize_app (rest : List Char) :
    deserializeAccountOwner (("Application").data ++ ':' :: rest)
      = match appIdFromStr rest with
        | some app_id => Except.ok (AccountOwner.Application app_id)
        | none => Except.error (DeError.badAppId rest) := by
  unfold deserializeAccountOwner
  rw [splitFirstColon_append _ _ (by decide)]
  dsimp only
  rw [if_neg (by decide), if_pos rfl]

theorem deserialize_unknown (pre rest : List Char) (hpre : ':' ∉ pre)
    (hu : pre ≠ ("User").data) (ha : pre ≠ ("Application").data) :
    deserializeAccountOwner (pre ++ ':' :: rest)
      = Except.error (DeError.unknownVariant pre) := by
  unfold deserializeAccountOwner
  rw [splitFirstColon_append _ _ hpre]
  dsimp only
  rw [if_neg hu, if_neg ha]

theorem deserialize_no_colon {l : List Char} (h : ':' ∉ l) :
    deserializeAccountOwner l = Except.error DeError.missingColon := by
  unfold deserializeAccountOwner
  rw [splitFirstColon_of_not_mem h]

theorem deserialize_serialize (v : AccountOwner) :
    deserializeAccountOwner (serializeAccountOwner v) = .ok v := by
  cases v with
  | User o => rw [serialize_user, deserialize_user, ownerFromStr_val o]
  | Application a => rw [serialize_app, deserialize_app, appIdFromStr_val a]

theorem serialize_deserialize {l : List Char} {v : AccountOwner}
    (h : deserializeAccountOwner l = .ok v) :
    serializeAccountOwner v = l := by
  cases hs : splitFirstColon l with
  | none =>
    simp only [deserializeAccountOwner, hs] at h
    exact absurd h (by simp)
  | some pb =>
    obtain ⟨pre, rest⟩ := pb
    have hl := splitFirstColon_eq_some hs
    simp only [deserializeAccountOwner, hs] at h
    by_cases hu : pre = ("User").data
    · rw [if_pos hu] at h
      cases ho : ownerFromStr rest with
      | none => rw [ho] at h; simp at h
      | some o =>
        rw [ho] at h
        simp only [Except.ok.injEq] at h
        subst h
        rw [serialize_user, ownerFromStr_eq_some ho, ← hu, ← hl]
    · rw [if_neg hu] at h
      by_cases ha : pre = ("Application").data
      · rw [if_pos ha] at h
        cases hap : appIdFromStr rest with
        | none => rw [hap] at h; simp at h
        | some a =>
          rw [hap] at h
          simp only [Except.ok.injEq] at h
          subst h
          rw [serialize_app, appIdFromStr_eq_some hap, ← ha, ← hl]
      · rw [if_neg ha] at h
        simp at h

theorem keys_mapInsert_mem {K V : Type} [DecidableEq K] (k m : K) (v : V) :
    ∀ l : List (K × V),
      m ∈ (mapInsert k v l).map Prod.fst ↔ m = k ∨ m ∈ l.map Prod.fst
  | [] => by simp [mapInsert]
  | (k', v') :: rest => by
    by_cases h : k = k'
    · subst h
      simp [mapInsert]
    · simp only [mapInsert, if_neg h, List.map_cons, List.mem_cons,
        keys_mapInsert_mem k m v rest]
      tauto

theorem nodup_mapInsert {K V : Type} [DecidableEq K] (k : K) (v : V) :
    ∀ l : List (K × V), (l.map Prod.fst).Nodup →
      ((mapInsert k v l).map Prod.fst).Nodup
  | [], _ => by simp [mapInsert]
  | (k', v') :: rest, h => by
    simp only [List.map_cons, List.nodup_cons] at h
    by_cases hk : k = k'
    · subst hk
      have hins : mapInsert k v ((k, v') :: rest) = (k, v) :: rest := by
        simp [mapInsert]
      rw [hins]
      simp only [List.map_cons, List.nodup_cons]
      exact h
    · simp only [mapInsert, if_neg hk, List.map_cons, List.nodup_cons,
        keys_mapInsert_mem]
      refine ⟨?_, nodup_mapInsert k v rest h.2⟩
      rintro (hke | hmem)
      · exact hk hke.symm
      · exact h.1 hmem

theorem foldl_with_account_nodup :
    ∀ (calls : List (AccountOwner × Nat)) (b : InitialStateBuilder),
      (b.account_balances.map Prod.fst).Nodup →
      (((calls.foldl (fun b c => b.with_account c.1 c.2) b).account_balances).map
        Prod.fst).Nodup
  | [], b, h => h
  | c :: calls, b, h => by
    simp only [List.foldl_cons]
    exact foldl_with_account_nodup calls (b.with_account c.1 c.2)
      (nodup_mapInsert c.1 c.2 b.account_balances h)

theorem foldl_with_account_mem :
    ∀ (calls : List (AccountOwner × Nat)) (b : InitialStateBuilder)
      (owner : AccountOwner),
      (owner ∈ ((calls.foldl (fun b c => b.with_account c.1 c.2)
          b).account_balances).map Prod.fst
        ↔ owner ∈ b.account_balances.map Prod.fst ∨ owner ∈ calls.map Prod.fst)
  | [], b, owner => by simp
  | c :: calls, b, owner => by
    rw [List.foldl_cons, foldl_with_account_mem calls (b.with_account c.1 c.2)
      owner]
    simp only [InitialStateBuilder.with_account, keys_mapInsert_mem,
      List.map_cons, List.mem_cons]
    tauto

theorem sessionTransfer_ok {remaining amount r : Nat}
    (h : sessionTransfer remaining amount = .ok r) :
    amount ≤ remaining ∧ r = remaining - amount := by
  by_cases hlt : remaining < amount
  · simp [sessionTransfer, hlt] at h
  · simp only [sessionTransfer, if_neg hlt, Except.ok.injEq] at h
    exact ⟨Nat.le_of_not_lt hlt, h.symm⟩

theorem runSession_out_add_remaining (chain : ChainId) :
    ∀ (calls : List SessionCall) (a : Nat) (s : GState),
      (runSession chain calls a s).2.2 + (runSession chain calls a s).1 = a
  | [], a, s => by simp [runSession]
  | call :: calls, a, s => by
    cases call with
    | Balance =>
      simp only [runSession, handleSessionCall, sessionOut]
      have := runSession_out_add_remaining chain calls a s
      omega
    | Transfer amount destination =>
      by_cases hlt : a < amount
      · simp only [runSession, handleSessionCall, sessionTransfer, if_pos hlt]
        exact runSession_out_add_remaining chain calls a s
      · simp only [runSession, handleSessionCall, sessionTransfer,
          if_neg hlt, sessionOut]
        have := runSession_out_add_remaining chain calls (a - amount)
          (finishSessionTransfer chain destination amount s)
        omega

/-- A concrete owner identity, for witnesses. -/
def ownA : Owner := ⟨['a'], by decide⟩

/-- Another concrete owner identity, for witnesses. -/
def ownB : Owner := ⟨['b'], by decide⟩

/-- C2: for every AccountOwner value v, decoding the encoded key string
yields v back, and for every validly-formed key string s (one the decoder
accepts), re-encoding the decoded value yields s back; the encoding is
exactly "User:" or "Application:" followed by the identity text. -/
theorem account_key_roundtrip :
    (∀ v : AccountOwner,
        deserializeAccountOwner (serializeAccountOwner v) = .ok v)
    ∧ (∀ (l : List Char) (v : AccountOwner),
        deserializeAccountOwner l = .ok v → serializeAccountOwner v = l)
    ∧ ∀ v : AccountOwner,
        (∃ o : Owner, serializeAccountOwner v = ("User:").data ++ o.val)
        ∨ ∃ a : ApplicationId,
            serializeAccountOwner v = ("Application:").data ++ a.val := by
  refine ⟨deserialize_serialize, fun _ _ h => serialize_deserialize h, ?_⟩
  intro v
  cases v with
  | User o => exact .inl ⟨o, rfl⟩
  | Application a => exact .inr ⟨a, rfl⟩

/-- Witness: the round-trip theorem applied to the concrete key
string "User:a". -/
theorem account_key_roundtrip_witness :
    serializeAccountOwner (AccountOwner.User ownA)
      = ['U', 's', 'e', 'r', ':', 'a'] :=
  account_key_roundtrip.2.1 ['U', 's', 'e', 'r', ':', 'a']
    (AccountOwner.User ownA) (by decide)

/-- C7: decoding splits on the first colon only; a string with no colon
fails with the malformed-key error, an unrecognized prefix fails with the
unknown-variant error, and every accepted string has the "User:" or
"Application:" shape — malformed input is never silently coerced. -/
theorem account_key_decode_errors :
    (∀ l : List Char, ':' ∉ l →
        deserializeAccountOwner l = .error .missingColon)
    ∧ (∀ pre rest : List Char, ':' ∉ pre → pre ≠ ("User").data →
        pre ≠ ("Application").data →
        deserializeAccountOwner (pre ++ ':' :: rest)
          = .error (.unknownVariant pre))
    ∧ ∀ (l : List Char) (v : AccountOwner),
        deserializeAccountOwner l = .ok v →
        (∃ rest : List Char, l = ("User:").data ++ rest)
        ∨ ∃ rest : List Char, l = ("Application:").data ++ rest := by
  refine ⟨fun l h => deserialize_no_colon h,
    fun pre rest h1 h2 h3 => deserialize_unknown pre rest h1 h2 h3, ?_⟩
  intro l v h
  have hs := serialize_deserialize h
  cases v with
  | User o => exact .inl ⟨o.val, by rw [← hs]; rfl⟩
  | Application a => exact .inr ⟨a.val, by rw [← hs]; rfl⟩

/-- Witness: decoding the colon-free string "ab" fails with the
malformed-key error. -/
theorem account_key_decode_errors_witness :
    deserializeAccountOwner ['a', 'b'] = .error .missingColon :=
  account_key_decode_errors.1 ['a', 'b'] (by decide)

/-- C9: the generic From conversion into AccountOwner always produces the
User variant applied to the converted identity — never Application. -/
theorem from_always_user :
    ∀ (T : Type) (into : T → Owner) (owner : T),
      accountOwnerFrom into owner = AccountOwner.User (into owner) :=
  fun _ _ _ => rfl

/-- C6: executing a Claim mutates no balance — the resulting state keeps the
ledgers unchanged — and its only effect is to append exactly one Withdraw
message addressed to the source account's chain. -/
theorem claim_frame :
    ∀ (chain : ChainId) (source_account : Account) (amount : Nat)
      (target_account : Account) (s : GState),
      executeOperation chain
          (.Claim source_account amount target_account) s
        = .ok ⟨s.ledgers,
            s.inflight ++ [(source_account.chain_id,
              .Withdraw source_account.owner amount target_account)]⟩ :=
  fun _ _ _ _ _ => rfl

/-- C4: a Transfer operation or a delivered Withdraw message whose amount
exceeds the debited owner's balance fails with InsufficientBalance, and the
rejected execution leaves the state — every balance — unchanged. -/
theorem insufficient_balance_rejection :
    ∀ (chain : ChainId) (owner : AccountOwner) (amount : Nat)
      (target_account : Account) (s : GState),
      getBal s ⟨chain, owner⟩ < amount →
      executeOperation chain (.Transfer owner amount target_account) s
          = .error .insufficientBalance
      ∧ applyOperation chain (.Transfer owner amount target_account) s = s
      ∧ handleMessage chain (.Withdraw owner amount target_account) s
          = .error .insufficientBalance
      ∧ applyMessage chain (.Withdraw owner amount target_account) s = s := by
  intro chain owner amount tgt s hlt
  have hd : debit s ⟨chain, owner⟩ amount = .error .insufficientBalance := by
    simp [debit, hlt]
  refine ⟨?_, ?_, ?_, ?_⟩
  · simp [executeOperation, hd]
  · simp [applyOperation, executeOperation, hd]
  · simp [handleMessage, hd]
  · simp [applyMessage, handleMessage, hd]

/-- Witness: transferring 1 from an empty ledger is rejected in full. -/
theorem insufficient_balance_rejection_witness :
    executeOperation 0 (.Transfer (.User ownA) 1 ⟨0, .User ownA⟩) ⟨[], []⟩
        = .error .insufficientBalance
    ∧ applyOperation 0 (.Transfer (.User ownA) 1 ⟨0, .User ownA⟩) ⟨[], []⟩
        = ⟨[], []⟩
    ∧ handleMessage 0 (.Withdraw (.User ownA) 1 ⟨0, .User ownA⟩) ⟨[], []⟩
        = .error .insufficientBalance
    ∧ applyMessage 0 (.Withdraw (.User ownA) 1 ⟨0, .User ownA⟩) ⟨[], []⟩
        = ⟨[], []⟩ :=
  insufficient_balance_rejection 0 (.User ownA) 1 ⟨0, .User ownA⟩ ⟨[], []⟩
    (by decide)

/-- C8: within a session, a transfer of amount t requires the remaining
amount to be at least t — failing with InsufficientBalance otherwise — and
decrements the remainder by t; over any sequence of session calls the total
amount transferred out never exceeds the amount the session was created
with. -/
theorem session_conservation :
    (∀ (chain : ChainId) (amount : Nat) (destination : Destination)
        (remaining : Nat) (s : GState), remaining < amount →
        handleSessionCall chain (.Transfer amount destination) remaining s
          = .error .insufficientBalance)
    ∧ (∀ (chain : ChainId) (amount : Nat) (destination : Destination)
        (remaining : Nat) (s : GState), amount ≤ remaining →
        handleSessionCall chain (.Transfer amount destination) remaining s
          = .ok (remaining - amount,
              finishSessionTransfer chain destination amount s))
    ∧ ∀ (chain : ChainId) (calls : List SessionCall) (a : Nat) (s : GState),
        (runSession chain calls a s).2.2 ≤ a := by
  refine ⟨?_, ?_, ?_⟩
  · intro chain amount destination remaining s hlt
    simp [handleSessionCall, sessionTransfer, hlt]
  · intro chain amount destination remaining s hle
    simp [handleSessionCall, sessionTransfer, Nat.not_lt.2 hle]
  · intro chain calls a s
    have := runSession_out_add_remaining chain calls a s
    omega

/-- Witness: a session holding 5 accepts a transfer of 3, leaving 2. -/
theorem session_conservation_witness :
    handleSessionCall 0 (.Transfer 3 .NewSession) 5 ⟨[], []⟩
      = .ok (2, finishSessionTransfer 0 .NewSession 3 ⟨[], []⟩) :=
  session_conservation.2.1 0 3 .NewSession 5 ⟨[], []⟩ (by decide)

/-- C10: adding the same owner twice to the initial-state builder keeps the
later balance (balances are replaced, not summed), and the built initial
state has exactly one entry per distinct owner added. -/
theorem initial_state_builder_last_write_wins :
    (∀ (b : InitialStateBuilder) (owner : AccountOwner) (a1 a2 : Nat),
        mapLookup owner
          (((b.with_account owner a1).with_account owner a2).build).accounts
          = some a2)
    ∧ ∀ calls : List (AccountOwner × Nat),
        ((((calls.foldl (fun b c => b.with_account c.1 c.2)
            InitialStateBuilder.default).build).accounts.map Prod.fst).Nodup
        ∧ ∀ owner : AccountOwner,
            owner ∈ ((calls.foldl (fun b c => b.with_account c.1 c.2)
              InitialStateBuilder.default).build).accounts.map Prod.fst
            ↔ owner ∈ calls.map Prod.fst) := by
  constructor
  · intro b owner a1 a2
    exact mapLookup_insert_self owner a2 _
  · intro calls
    constructor
    · exact foldl_with_account_nodup calls InitialStateBuilder.default
        (by simp [InitialStateBuilder.default])
    · intro owner
      have := foldl_with_account_mem calls InitialStateBuilder.default owner
      simpa [InitialStateBuilder.default, InitialStateBuilder.build] using this

/-- Balances ignore the in-flight component of the state. -/
theorem getBal_with_inflight (s : GState) (msgs : List (ChainId × Message))
    (a : Account) : getBal { s with inflight := msgs } a = getBal s a := rfl

/-- C3: a Transfer with sufficient balance debits the owner; a same-chain
target is credited directly with no message emitted, a remote target
produces exactly one Credit message addressed to the target chain; an
insufficient balance fails with InsufficientBalance. -/
theorem transfer_semantics :
    ∀ (chain : ChainId) (owner : AccountOwner) (amount : Nat)
      (target_account : Account) (s : GState),
      (getBal s ⟨chain, owner⟩ < amount →
        executeOperation chain (.Transfer owner amount target_account) s
          = .error .insufficientBalance)
      ∧ (amount ≤ getBal s ⟨chain, owner⟩ → target_account.chain_id = chain →
          target_account.owner ≠ owner →
          ∃ s', executeOperation chain (.Transfer owner amount target_account) s
              = .ok s'
            ∧ getBal s' ⟨chain, owner⟩ = getBal s ⟨chain, owner⟩ - amount
            ∧ getBal s' target_account = getBal s target_account + amount
            ∧ (∀ a : Account, a ≠ ⟨chain, owner⟩ → a ≠ target_account →
                getBal s' a = getBal s a)
            ∧ s'.inflight = s.inflight)
      ∧ (amount ≤ getBal s ⟨chain, owner⟩ → target_account.chain_id ≠ chain →
          ∃ s', executeOperation chain (.Transfer owner amount target_account) s
              = .ok s'
            ∧ getBal s' ⟨chain, owner⟩ = getBal s ⟨chain, owner⟩ - amount
            ∧ (∀ a : Account, a ≠ ⟨chain, owner⟩ → getBal s' a = getBal s a)
            ∧ s'.inflight = s.inflight
                ++ [(target_account.chain_id,
                    .Credit target_account.owner amount)]) := by
  intro chain owner amount tgt s
  refine ⟨?_, ?_, ?_⟩
  · intro hlt
    have hd : debit s ⟨chain, owner⟩ amount = .error .insufficientBalance := by
      simp [debit, hlt]
    simp [executeOperation, hd]
  · intro hle hchain howner
    have hd : debit s ⟨chain, owner⟩ amount
        = .ok (setBal s ⟨chain, owner⟩ (getBal s ⟨chain, owner⟩ - amount)) := by
      simp [debit, Nat.not_lt.2 hle]
    have hne : tgt ≠ (⟨chain, owner⟩ : Account) := fun he => howner (by rw [he])
    refine ⟨finishTransfer chain tgt amount
        (setBal s ⟨chain, owner⟩ (getBal s ⟨chain, owner⟩ - amount)),
      by simp [executeOperation, hd], ?_, ?_, ?_, ?_⟩
    · simp only [finishTransfer, if_pos hchain, credit]
      rw [getBal_setBal_ne _ _ (Ne.symm hne), getBal_setBal_self]
    · simp only [finishTransfer, if_pos hchain, credit]
      rw [getBal_setBal_self, getBal_setBal_ne _ _ hne]
    · intro a ha hat
      simp only [finishTransfer, if_pos hchain, credit]
      rw [getBal_setBal_ne _ _ hat, getBal_setBal_ne _ _ ha]
    · simp only [finishTransfer, if_pos hchain, credit, setBal]
  · intro hle hchain
    have hd : debit s ⟨chain, owner⟩ amount
        = .ok (setBal s ⟨chain, owner⟩ (getBal s ⟨chain, owner⟩ - amount)) := by
      simp [debit, Nat.not_lt.2 hle]
    refine ⟨finishTransfer chain tgt amount
        (setBal s ⟨chain, owner⟩ (getBal s ⟨chain, owner⟩ - amount)),
      by simp [executeOperation, hd], ?_, ?_, ?_⟩
    · simp only [finishTransfer, if_neg hchain]
      rw [getBal_with_inflight, getBal_setBal_self]
    · intro a ha
      simp only [finishTransfer, if_neg hchain]
      rw [getBal_with_inflight, getBal_setBal_ne _ _ ha]
    · simp only [finishTransfer, if_neg hchain, setBal]

/-- Witness: on a chain where the owner holds 5, a local transfer of 3 to
another owner debits 3 and credits 3 within the block. -/
theorem transfer_semantics_witness :
    ∃ s' : GState,
      executeOperation 0 (.Transfer (.User ownA) 3 ⟨0, .User ownB⟩)
          ⟨[(⟨0, .User ownA⟩, 5)], []⟩ = .ok s'
      ∧ getBal s' ⟨0, .User ownA⟩
          = getBal (⟨[(⟨0, .User ownA⟩, 5)], []⟩ : GState) ⟨0, .User ownA⟩ - 3
      ∧ getBal s' ⟨0, .User ownB⟩
          = getBal (⟨[(⟨0, .User ownA⟩, 5)], []⟩ : GState) ⟨0, .User ownB⟩ + 3
      ∧ (∀ a : Account, a ≠ ⟨0, .User ownA⟩ → a ≠ ⟨0, .User ownB⟩ →
          getBal s' a = getBal (⟨[(⟨0, .User ownA⟩, 5)], []⟩ : GState) a)
      ∧ s'.inflight = [] :=
  (transfer_semantics 0 (.User ownA) 3 ⟨0, .User ownB⟩
      ⟨[(⟨0, .User ownA⟩, 5)], []⟩).2.1 (by decide) rfl (by decide)

/-- C5: a Claim followed by delivery of the resulting Withdraw on the
source chain reproduces, state for state, the direct Transfer executed on
the source chain — so the subsequent Credit delivery (the third hop) yields
the same final balances on every chain as the direct Transfer path. -/
theorem claim_equals_direct_transfer :
    ∀ (chain : ChainId) (source_account : Account) (amount : Nat)
      (target_account : Account) (s : GState),
      s.inflight = [] →
      ((executeOperation chain
            (.Claim source_account amount target_account) s).bind
          (deliverMessage 0)
        = executeOperation source_account.chain_id
            (.Transfer source_account.owner amount target_account) s)
      ∧ (((executeOperation chain
            (.Claim source_account amount target_account) s).bind
          (deliverMessage 0)).bind (deliverMessage 0)
        = (executeOperation source_account.chain_id
            (.Transfer source_account.owner amount target_account) s).bind
          (deliverMessage 0)) := by
  intro chain src amount tgt s hemp
  obtain ⟨X, owner⟩ := src
  obtain ⟨led, infl⟩ := s
  have hinfl : infl = [] := hemp
  subst hinfl
  have key : ∀ u : GState,
      handleMessage X (.Withdraw owner amount tgt) u
        = executeOperation X (.Transfer owner amount tgt) u := by
    intro u
    cases hd : debit u ⟨X, owner⟩ amount with
    | error e => simp [handleMessage, executeOperation, hd]
    | ok u' => simp [handleMessage, executeOperation, hd]
  have h1 : (executeOperation chain (.Claim ⟨X, owner⟩ amount tgt)
        (⟨led, []⟩ : GState)).bind (deliverMessage 0)
      = handleMessage X (.Withdraw owner amount tgt) (⟨led, []⟩ : GState) :=
    rfl
  exact ⟨by rw [h1, key], by rw [h1, key]⟩

/-- Witness: claiming 3 out of chain 0 from chain 2 towards chain 1 equals
the direct transfer on chain 0 once the Withdraw is delivered. -/
theorem claim_equals_direct_transfer_witness :
    (executeOperation 2 (.Claim ⟨0, .User ownA⟩ 3 ⟨1, .User ownB⟩)
        ⟨[(⟨0, .User ownA⟩, 5)], []⟩).bind (deliverMessage 0)
      = executeOperation 0 (.Transfer (.User ownA) 3 ⟨1, .User ownB⟩)
          ⟨[(⟨0, .User ownA⟩, 5)], []⟩ :=
  (claim_equals_direct_transfer 2 ⟨0, .User ownA⟩ 3 ⟨1, .User ownB⟩
      ⟨[(⟨0, .User ownA⟩, 5)], []⟩ rfl).1

/-- C1: along any sequence of operation executions and message deliveries
from the initial distribution, ledger balances plus value in transit equal
the initial total; whenever no message is in flight, the ledger balances
alone sum to the initial distribution — value is never duplicated nor
destroyed. -/
theorem value_conservation :
    ∀ (chain : ChainId) (st : InitialState) (s : GState),
      Steps (initialGState chain st) s →
      totalOf s.ledgers + transitOf s.inflight
          = (st.accounts.map Prod.snd).sum
      ∧ (s.inflight = [] →
          totalOf s.ledgers = (st.accounts.map Prod.snd).sum) := by
  intro chain st s h
  have hv := totalValue_steps h
  have hinit : totalValue (initialGState chain st)
      = (st.accounts.map Prod.snd).sum := by
    have hcomp : (Prod.snd ∘ fun p : AccountOwner × Nat =>
        ((⟨chain, p.1⟩ : Account), p.2)) = Prod.snd := by
      funext p
      rfl
    simp [totalValue, initialGState, totalOf, transitOf, List.map_map, hcomp]
  have hs : totalOf s.ledgers + transitOf s.inflight
      = (st.accounts.map Prod.snd).sum := by
    rw [show totalOf s.ledgers + transitOf s.inflight = totalValue s from rfl,
      hv, hinit]
  refine ⟨hs, fun hemp => ?_⟩
  have hz : transitOf s.inflight = 0 := by simp [hemp, transitOf]
  omega

/-- The initial distribution used in the conservation witness. -/
def wInitial : InitialState := ⟨[(.User ownA, 10)]⟩

/-- Conservation witness, intermediate state: 4 of the 10 tokens are in
transit towards chain 1. -/
def wS1 : GState := ⟨[(⟨0, .User ownA⟩, 6)], [(1, .Credit (.User ownA) 4)]⟩

/-- Conservation witness, final state: the Credit has been delivered. -/
def wS2 : GState := ⟨[(⟨0, .User ownA⟩, 6), (⟨1, .User ownA⟩, 4)], []⟩

/-- Witness: a remote transfer of 4 out of 10 followed by its Credit
delivery conserves the initial total. -/
theorem value_conservation_witness :
    totalOf wS2.ledgers + transitOf wS2.inflight
        = (wInitial.accounts.map Prod.snd).sum
    ∧ (wS2.inflight = [] →
        totalOf wS2.ledgers = (wInitial.accounts.map Prod.snd).sum) :=
  value_conservation 0 wInitial wS2
    (Relation.ReflTransGen.tail
      (Relation.ReflTransGen.single
        (Step.op 0 (.Transfer (.User ownA) 4 ⟨1, .User ownA⟩)
          (initialGState 0 wInitial) wS1 (by decide)))
      (Step.deliver 0 wS1 wS2 (by decide)))

end Fungible
